import Mathlib

/-!
Shallow embedding of the rust-explorer core subsystems (state store, sort/filter
engine, navigation controller, persistence manager) together with proofs about
the behaviours the specification describes.

Conventions of the embedding:
* Rust `u64` values are modelled as `Nat` (the claims never exercise wrap-around);
  where an overflow check matters (`str::parse::<u64>`) the bound `2 ^ 64` is explicit.
* `f64` fields are inert data in every claim, so they are carried as an opaque
  bit-pattern wrapper `F64` and never computed with.
* Timestamps (`chrono::Utc::now`, file modification times) are modelled by an
  explicit `now : Nat` argument threaded through each mutating operation.
* `PathBuf` values are carried as `String`.
* `HashMap<String, String>` is carried as an association list.
* Fallible Rust functions returning `Result<T, AppError>` whose error path can
  leave visible partial mutations are modelled as `Option AppError × State`
  (the second component is the state as left behind by the call).
-/

namespace RustExplorer

/-- Embedding of `rust_explorer_utils::AppError` (crates/utils/src/error.rs).
The `WithMetadata` variant is carried with its message only; no claim inspects
its metadata payload. -/
inductive AppError where
  | FileSystem (msg : String)
  | FileSystemCustom (msg : String)
  | Config (msg : String)
  | Ui (msg : String)
  | InvalidPath (path : String)
  | Json (msg : String)
  | OutOfMemory
  | AccessDenied (msg : String)
  | Timeout (msg : String)
  | Network (msg : String)
  | InvalidInput (msg : String)
  | Internal (msg : String)
  | WithMetadata (message : String)
  deriving DecidableEq, Repr

/-- Opaque carrier for Rust `f64` fields (bit pattern; never computed with). -/
structure F64 where
  bits : Nat
  deriving DecidableEq, Repr

/-- Embedding of `WindowState` (crates/core/src/state.rs). -/
structure WindowState where
  width : F64
  height : F64
  x : Option F64
  y : Option F64
  maximized : Bool
  minimized : Bool
  deriving DecidableEq, Repr

/-- `WindowState::default` (width 1200, height 800 carried as bit-patterns). -/
def WindowState.default : WindowState :=
  { width := ⟨1200⟩, height := ⟨800⟩, x := none, y := none
    maximized := false, minimized := false }

/-- Embedding of `TabState` (crates/core/src/state.rs). -/
structure TabState where
  id : String
  name : String
  current_path : String
  active : Bool
  created_at : Nat
  deriving DecidableEq, Repr

/-- `TabState::new` with the creation instant made explicit. -/
def TabState.new (id name current_path : String) (now : Nat) : TabState :=
  { id := id, name := name, current_path := current_path
    active := false, created_at := now }

/-- Embedding of `PaneType`. -/
inductive PaneType where
  | FileList | Preview | Properties | Log
  deriving DecidableEq, Repr

/-- Embedding of `PanePosition`. -/
inductive PanePosition where
  | Left | Right | Top | Bottom | Center
  deriving DecidableEq, Repr

/-- Embedding of `PaneSize`. -/
structure PaneSize where
  width : Option F64
  height : Option F64
  flex : Option F64
  deriving DecidableEq, Repr

/-- Embedding of `PaneState`. -/
structure PaneState where
  id : String
  pane_type : PaneType
  position : PanePosition
  size : PaneSize
  visible : Bool
  deriving DecidableEq, Repr

/-- Embedding of `UiState` (`custom_properties` carried as an association list). -/
structure UiState where
  sidebar_visible : Bool
  statusbar_visible : Bool
  toolbar_visible : Bool
  theme : String
  custom_properties : List (String × String)
  deriving DecidableEq, Repr

/-- `UiState::default`. -/
def UiState.default : UiState :=
  { sidebar_visible := true, statusbar_visible := true, toolbar_visible := true
    theme := "default", custom_properties := [] }

/-- Embedding of `AppState` (crates/core/src/state.rs). -/
structure AppState where
  window : WindowState
  tabs : List TabState
  panes : List PaneState
  ui : UiState
  active_tab_id : Option String
  last_saved : Nat
  deriving DecidableEq, Repr

/-- `AppState::default` with the clock explicit. -/
def AppState.mkDefault (now : Nat) : AppState :=
  { window := WindowState.default, tabs := [], panes := []
    ui := UiState.default, active_tab_id := none, last_saved := now }

/-- `AppState::add_tab`: deactivate every existing tab, push the new tab with
`active = true`, record it as the active tab and refresh `last_saved`. -/
def AppState.add_tab (s : AppState) (tab : TabState) (now : Nat) : AppState :=
  { s with
    tabs := (s.tabs.map fun t => { t with active := false }) ++ [{ tab with active := true }]
    active_tab_id := some tab.id
    last_saved := now }

/-- `AppState::remove_tab`.  Mirrors the source: locate the first tab with the
given id (`Vec::position`), remove it (`Vec::remove`), and when the removed id
was the recorded active id reactivate the predecessor (or the first remaining
tab), finally refreshing `last_saved`.  An unknown id yields
`AppError::Internal` and the state component is returned untouched. -/
def AppState.remove_tab (s : AppState) (tab_id : String) (now : Nat) :
    Option AppError × AppState :=
  match s.tabs.findIdx? (fun t => t.id == tab_id) with
  | none => (some (.Internal ("Tab not found: " ++ tab_id)), s)
  | some tab_index =>
    let tabs' := s.tabs.eraseIdx tab_index
    if s.active_tab_id = some tab_id then
      if tabs' ≠ [] then
        let new_active_index := if tab_index > 0 then tab_index - 1 else 0
        match tabs'[new_active_index]? with
        | some new_active_tab =>
            (none, { s with
              tabs := tabs'.set new_active_index { new_active_tab with active := true }
              active_tab_id := some new_active_tab.id
              last_saved := now })
        | none => (none, { s with tabs := tabs', last_saved := now })
      else
        (none, { s with tabs := tabs', active_tab_id := none, last_saved := now })
    else
      (none, { s with tabs := tabs', last_saved := now })

/-- Helper mirroring `self.tabs.iter_mut().find(|t| t.id == tab_id)` followed by
`tab.active = true`: activate the first tab carrying the id, or report `none`. -/
def activateFirst (tab_id : String) : List TabState → Option (List TabState)
  | [] => none
  | t :: ts =>
    if t.id == tab_id then some ({ t with active := true } :: ts)
    else (activateFirst tab_id ts).map (t :: ·)

/-- `AppState::set_active_tab`.  The source clears the `active` flag of every
tab *before* looking the id up, so the error path leaves the cleared flags
behind (the partial mutation the specification flags in §9). -/
def AppState.set_active_tab (s : AppState) (tab_id : String) (now : Nat) :
    Option AppError × AppState :=
  let cleared := s.tabs.map fun t => { t with active := false }
  match activateFirst tab_id cleared with
  | none => (some (.Internal ("Tab not found: " ++ tab_id)), { s with tabs := cleared })
  | some tabs' =>
      (none, { s with tabs := tabs', active_tab_id := some tab_id, last_saved := now })

/-- `AppState::get_active_tab`. -/
def AppState.get_active_tab (s : AppState) : Option TabState :=
  s.active_tab_id.bind fun id => s.tabs.find? (fun t => t.id == id)

/-! ## Sort/filter engine (crates/core/src/file_sorting.rs) -/

/-- Embedding of `FileType` (crates/core/src/filesystem.rs). -/
inductive FileType where
  | File | Directory | SymLink | Other
  deriving DecidableEq, Repr

/-- Embedding of `FileEntry` (crates/core/src/filesystem.rs); `size : u64` is
carried as `Nat`, `modified : Option<SystemTime>` as `Option Nat`. -/
structure FileEntry where
  name : String
  path : String
  file_type : FileType
  size : Nat
  modified : Option Nat
  deriving DecidableEq, Repr

/-- Embedding of `SortCriteria`. -/
inductive SortCriteria where
  | Name | Size | Modified | Type
  deriving DecidableEq, Repr

/-- Embedding of `SortDirection`. -/
inductive SortDirection where
  | Ascending | Descending
  deriving DecidableEq, Repr

/-- Embedding of `SortConfig`. -/
structure SortConfig where
  criteria : SortCriteria
  direction : SortDirection
  folders_first : Bool
  deriving DecidableEq, Repr

/-- Embedding of `FilterCriteria`; `u64` size bounds carried as `Nat`. -/
structure FilterCriteria where
  show_hidden : Bool
  name_filter : Option String
  extension_filter : Option String
  min_size : Option Nat
  max_size : Option Nat
  deriving DecidableEq, Repr

/-- Model of `str::starts_with` (structural, so concrete instances evaluate
in the kernel). -/
def strStartsWith (s p : String) : Bool :=
  p.data.isPrefixOf s.data

/-- `is_hidden_file`: the name begins with a dot. -/
def is_hidden_file (name : String) : Bool :=
  strStartsWith name "."

/-- Model of Rust `str::to_lowercase` restricted to its ASCII fragment
(`Char.toLower` lowers exactly the letters `A`–`Z`); every name the claims and
the specification exercise is ASCII. -/
def rustLower (s : String) : List Char :=
  s.data.map Char.toLower

/-- Model of `Path::file_name` on our string-carried paths: the component
after the last slash (the paths the claims exercise are plain names). -/
def fileNameOf (p : String) : String :=
  String.mk ((p.data.reverse.takeWhile (fun c => c ≠ '/')).reverse)

/-- Characters after the last dot of a character list. -/
def afterLastDot (l : List Char) : List Char :=
  (l.reverse.takeWhile (fun c => c ≠ '.')).reverse

/-- Model of `Path::extension`: the part of the file name after its last dot;
`none` when there is no dot, or when the only dot is the leading character of a
hidden file. -/
def extensionOf (p : String) : Option String :=
  match (fileNameOf p).data with
  | [] => none
  | _ :: body => if body.contains '.' then some (String.mk (afterLastDot body)) else none

/-- `extract_number`: split the maximal leading ASCII-digit run off a character
list (the run and the remainder). -/
def digitRun : List Char → List Char × List Char
  | [] => ([], [])
  | c :: cs =>
    if c.isDigit then
      let p := digitRun cs
      (c :: p.1, p.2)
    else ([], c :: cs)

theorem digitRun_rest_length (l : List Char) : (digitRun l).2.length ≤ l.length := by
  induction l with
  | nil => simp [digitRun]
  | cons c cs ih =>
    by_cases h : c.isDigit <;> simp [digitRun, h] <;> omega

theorem digitRun_rest_length_of_digit (c : Char) (cs : List Char) (h : c.isDigit) :
    (digitRun (c :: cs)).2.length ≤ cs.length := by
  simpa [digitRun, h] using digitRun_rest_length cs

/-- Model of `str::parse::<u64>().unwrap_or(0)` on a digit run: the numeric
value, with the empty run and runs overflowing `u64` collapsing to `0`. -/
def parseU64 (ds : List Char) : Nat :=
  if ds = [] then 0
  else
    let n := ds.foldl (fun acc c => acc * 10 + (c.toNat - '0'.toNat)) 0
    if n < 2 ^ 64 then n else 0

/-- `natural_sort_compare` on already-lowercased character lists: walk both
lists, comparing maximal digit runs numerically and other characters by code
point; the list that runs out first is smaller. -/
def natural_sort_compare : List Char → List Char → Ordering
  | [], [] => .eq
  | [], _ :: _ => .lt
  | _ :: _, [] => .gt
  | a :: as, b :: bs =>
    if h : a.isDigit && b.isDigit then
      let ap := digitRun (a :: as)
      let bp := digitRun (b :: bs)
      match compare (parseU64 ap.1) (parseU64 bp.1) with
      | .eq => natural_sort_compare ap.2 bp.2
      | o => o
    else
      match compare a b with
      | .eq => natural_sort_compare as bs
      | o => o
termination_by a b => a.length + b.length
decreasing_by
  · simp only [Bool.and_eq_true] at h
    have ha : (digitRun (a :: as)).2.length ≤ as.length :=
      digitRun_rest_length_of_digit a as h.1
    have hb : (digitRun (b :: bs)).2.length ≤ bs.length :=
      digitRun_rest_length_of_digit b bs h.2
    simp only [List.length_cons]
    omega
  · simp only [List.length_cons]; omega

/-- `compare_names`: case-insensitive natural order. -/
def compare_names (a b : String) : Ordering :=
  natural_sort_compare (rustLower a) (rustLower b)

/-- `compare_sizes`. -/
def compare_sizes (a b : Nat) : Ordering :=
  compare a b

/-- `compare_modified_times`. -/
def compare_modified_times : Option Nat → Option Nat → Ordering
  | some a, some b => compare a b
  | some _, none => .gt
  | none, some _ => .lt
  | none, none => .eq

/-- Lexicographic code-point comparison of character lists (Rust `str` `Ord`). -/
def lexCompare : List Char → List Char → Ordering
  | [], [] => .eq
  | [], _ :: _ => .lt
  | _ :: _, [] => .gt
  | a :: as, b :: bs =>
    match compare a b with
    | .eq => lexCompare as bs
    | o => o

/-- `compare_types`: case-insensitive comparison of the extensions (missing
extension treated as the empty string). -/
def compare_types (a b : String) : Ordering :=
  let aExt := (extensionOf a).getD ""
  let bExt := (extensionOf b).getD ""
  lexCompare (rustLower aExt) (rustLower bExt)

/-- Model of Rust `str::contains(&str)`: contiguous substring test. -/
def strContainsSub (hay needle : List Char) : Bool :=
  decide (needle <:+: hay)

/-- `FileSortFilterManager::passes_filter`: conjunction of the hidden-file,
name-substring, extension and size filters, mirroring the source's sequence of
early returns. -/
def passes_filter (fc : FilterCriteria) (e : FileEntry) : Bool :=
  if !fc.show_hidden && is_hidden_file e.name then false
  else if (match fc.name_filter with
    | some nf => !nf.isEmpty && !(strContainsSub (rustLower e.name) (rustLower nf))
    | none => false) then false
  else if (match fc.extension_filter with
    | some ef =>
      if !ef.isEmpty then
        match extensionOf e.path with
        | some ext => !(rustLower ext == rustLower ef)
        | none => true
      else false
    | none => false) then false
  else if (e.file_type == FileType.File) &&
      ((match fc.min_size with
        | some mn => decide (e.size < mn)
        | none => false) ||
       (match fc.max_size with
        | some mx => decide (e.size > mx)
        | none => false)) then false
  else true

/-- `FileSortFilterManager::compare_entries`: folders-first early returns that
bypass the direction flag, then the criterion comparison with the direction
applied (`Ordering::reverse` is `Ordering.swap`). -/
def compare_entries (cfg : SortConfig) (a b : FileEntry) : Ordering :=
  let result :=
    match cfg.criteria with
    | .Name => compare_names a.name b.name
    | .Size => compare_sizes a.size b.size
    | .Modified => compare_modified_times a.modified b.modified
    | .Type => compare_types a.path b.path
  let directed :=
    match cfg.direction with
    | .Ascending => result
    | .Descending => result.swap
  if cfg.folders_first then
    match a.file_type, b.file_type with
    | .Directory, .Directory => directed
    | .Directory, _ => .lt
    | _, .Directory => .gt
    | _, _ => directed
  else directed

/-- Stable insertion used to model `slice::sort_by` (a stable sort). -/
def insertBy (cmp : α → α → Ordering) (x : α) : List α → List α
  | [] => [x]
  | y :: ys => if cmp x y = .gt then y :: insertBy cmp x ys else x :: y :: ys

/-- Model of `slice::sort_by`: stable insertion sort. -/
def sortBy (cmp : α → α → Ordering) : List α → List α
  | [] => []
  | x :: xs => insertBy cmp x (sortBy cmp xs)

/-- `FileSortFilterManager::process_entries`: filter (`Vec::retain`), then sort. -/
def process_entries (cfg : SortConfig) (fc : FilterCriteria) (entries : List FileEntry) :
    List FileEntry :=
  sortBy (compare_entries cfg) (entries.filter (passes_filter fc))

/-! ## Navigation controller (crates/ui/src/components/file_navigation.rs)

`validate_navigation` (crates/core/src/system_integration.rs) checks the real
filesystem; it is modelled by a caller-supplied oracle `valid : String → Bool`,
with its failure collapsed to one `FileSystemCustom` message (the claims never
inspect the message text). -/

/-- Embedding of `FileNavigationConfig`. -/
structure FileNavigationConfig where
  enable_double_click : Bool
  enable_parent_navigation : Bool
  enable_history : Bool
  deriving DecidableEq, Repr

/-- `FileNavigationConfig::default`. -/
def FileNavigationConfig.mkDefault : FileNavigationConfig :=
  { enable_double_click := true, enable_parent_navigation := true, enable_history := true }

/-- Embedding of `FileNavigationState`. -/
structure FileNavigationState where
  current_path : String
  history_back : List String
  history_forward : List String
  last_error : Option String
  deriving DecidableEq, Repr

/-- `FileNavigationState::new`. -/
def FileNavigationState.new (initial_path : String) : FileNavigationState :=
  { current_path := initial_path, history_back := [], history_forward := []
    last_error := none }

/-- `FileNavigationManager::navigate_to`: validate via the collaborator; when
the target differs from the current path (and history is on) push the current
path onto the back history, clear the forward history and trim the oldest back
entry past 50; then set the current path. -/
def navigate_to (valid : String → Bool) (cfg : FileNavigationConfig)
    (s : FileNavigationState) (path : String) :
    Option AppError × FileNavigationState :=
  if !(valid path) then
    (some (.FileSystemCustom ("directory not navigable: " ++ path)), s)
  else
    let s1 :=
      if cfg.enable_history = true ∧ s.current_path ≠ path then
        let back := s.history_back ++ [s.current_path]
        let back := if back.length > 50 then back.drop 1 else back
        { s with history_back := back, history_forward := [] }
      else s
    (none, { s1 with current_path := path, last_error := none })

/-- `FileNavigationManager::go_back`: pop the back stack (`Vec::pop` takes the
last element), push the prior current path onto the forward stack. -/
def go_back (cfg : FileNavigationConfig) (s : FileNavigationState) :
    Option AppError × FileNavigationState :=
  if !cfg.enable_history then
    (some (.FileSystemCustom "history navigation disabled"), s)
  else
    match s.history_back.getLast? with
    | none => (some (.FileSystemCustom "no back history"), s)
    | some back_path =>
      (none, { s with
        history_back := s.history_back.dropLast
        history_forward := s.history_forward ++ [s.current_path]
        current_path := back_path })

/-- `FileNavigationManager::go_forward`: pop the forward stack, push the prior
current path onto the back stack. -/
def go_forward (cfg : FileNavigationConfig) (s : FileNavigationState) :
    Option AppError × FileNavigationState :=
  if !cfg.enable_history then
    (some (.FileSystemCustom "history navigation disabled"), s)
  else
    match s.history_forward.getLast? with
    | none => (some (.FileSystemCustom "no forward history"), s)
    | some forward_path =>
      (none, { s with
        history_forward := s.history_forward.dropLast
        history_back := s.history_back ++ [s.current_path]
        current_path := forward_path })

/-- `can_go_back`. -/
def can_go_back (s : FileNavigationState) : Bool :=
  !s.history_back.isEmpty

/-- `can_go_forward`. -/
def can_go_forward (s : FileNavigationState) : Bool :=
  !s.history_forward.isEmpty

/-- The navigation operations a caller can issue against one controller
(`navigate_up` and directory double-clicks delegate to `navigate_to`). -/
inductive NavOp where
  | nav (path : String)
  | back
  | forward
  deriving DecidableEq, Repr

/-- One controller call; on an error the state component returned by the
operation (unchanged, for all three operations) is kept. -/
def navStep (valid : String → Bool) (cfg : FileNavigationConfig)
    (s : FileNavigationState) : NavOp → FileNavigationState
  | .nav p => (navigate_to valid cfg s p).2
  | .back => (go_back cfg s).2
  | .forward => (go_forward cfg s).2

/-- Run a sequence of navigation operations. -/
def navRun (valid : String → Bool) (cfg : FileNavigationConfig)
    (s : FileNavigationState) (ops : List NavOp) : FileNavigationState :=
  ops.foldl (navStep valid cfg) s

/-! ## Persistence manager (crates/config/src/state_persistence.rs)

The managed state directory is modelled as an association list from file name
to file data (content and modification time); `fs::read_dir` enumerates it in
list order.  Serialization is the identity on the already-serialized `String`
payload (no claim exercises a serialization failure).  The two fallible
filesystem primitives the claims exercise, `fs::copy` and `fs::remove_file`,
fail exactly when the world's `copyOk` / `removeOk` flag is false. -/

/-- On-disk file: content plus modification time. -/
structure FileData where
  content : String
  mtime : Nat
  deriving DecidableEq, Repr

/-- The managed state directory plus the fault behaviour of the filesystem. -/
structure FsWorld where
  files : List (String × FileData)
  copyOk : Bool
  removeOk : Bool
  deriving DecidableEq, Repr

/-- Look a file up by name (first match). -/
def FsWorld.get (w : FsWorld) (name : String) : Option FileData :=
  (w.files.find? (fun f => f.1 == name)).map Prod.snd

/-- `Path::exists` inside the managed directory. -/
def FsWorld.exists (w : FsWorld) (name : String) : Bool :=
  (w.get name).isSome

/-- `fs::write` / `fs::copy` target effect: replace the file in place or append
it, stamping the modification time. -/
def FsWorld.write (w : FsWorld) (name content : String) (now : Nat) : FsWorld :=
  if w.exists name then
    { w with files := w.files.map (fun f =>
        if f.1 == name then (f.1, { content := content, mtime := now }) else f) }
  else
    { w with files := w.files ++ [(name, { content := content, mtime := now })] }

/-- `fs::remove_file` effect. -/
def FsWorld.remove (w : FsWorld) (name : String) : FsWorld :=
  { w with files := w.files.filter (fun f => f.1 ≠ name) }

/-- Characters of a file name strictly before its last dot. -/
def beforeLastDot (l : List Char) : List Char :=
  ((l.reverse.dropWhile (fun c => c ≠ '.')).drop 1).reverse

/-- Model of `Path::file_stem` on a plain file name: `none` for the empty
name, the whole name when it has no dot past its first character, otherwise
the portion before the final dot. -/
def fileStemOf (f : String) : Option String :=
  match f.data with
  | [] => none
  | c :: body =>
    if body.contains '.' then some (String.mk (beforeLastDot (c :: body)))
    else some f

/-- The timestamped backup file name `create_backup` produces:
`<stem>.backup.<timestamp>.json` (the `%Y%m%d_%H%M%S` rendering of the clock is
modelled as `toString now`). -/
def backupFileName (stem : String) (now : Nat) : String :=
  stem ++ ".backup." ++ toString now ++ ".json"

/-- `StatePersistenceManager::create_backup`: when a file already exists at the
key, copy it to the timestamped backup name; a copy failure is reported and
nothing is written. -/
def create_backup (w : FsWorld) (filename : String) (now : Nat) :
    Option AppError × FsWorld :=
  if w.exists filename then
    match fileStemOf filename with
    | none => (some (.Internal "Invalid file path"), w)
    | some stem =>
      if w.copyOk then
        match w.get filename with
        | some fd => (none, w.write (backupFileName stem now) fd.content now)
        | none => (none, w)
      else (some (.FileSystem "copy failed"), w)
  else (none, w)

/-- `StatePersistenceManager::list_backups`: collect the directory entries
whose name starts with `<full file name>.backup.` and sort them newest-first by
modification time.  (Note the prefix uses `file_name`, while `create_backup`
builds backup names from `file_stem`.) -/
def list_backups (w : FsWorld) (filename : String) : List (String × FileData) :=
  let pfx := fileNameOf filename ++ ".backup."
  sortBy (fun a b => compare b.2.mtime a.2.mtime)
    (w.files.filter (fun f => strStartsWith (fileNameOf f.1) pfx))

/-- `StatePersistenceManager::cleanup_old_backups`: when more than
`max_backups` backups are listed, best-effort-delete everything past the first
`max_backups` of the newest-first list (deletion failures are swallowed). -/
def cleanup_old_backups (w : FsWorld) (filename : String) (max_backups : Nat) : FsWorld :=
  let backups := list_backups w filename
  if backups.length > max_backups then
    (backups.drop max_backups).foldl
      (fun acc b => if acc.removeOk then acc.remove b.1 else acc) w
  else w

/-- `StatePersistenceManager::save_state`: back the existing file up, then
write the serialized value over the key, then prune old backups. -/
def save_state (w : FsWorld) (json filename : String) (now : Nat) (max_backups : Nat) :
    Option AppError × FsWorld :=
  match create_backup w filename now with
  | (some e, w1) => (some e, w1)
  | (none, w1) =>
    let w2 := w1.write filename json now
    (none, cleanup_old_backups w2 filename max_backups)

/-- `StatePersistenceManager::load_state`: missing file reported as
`InvalidPath`; deserialization of the stored content is the identity. -/
def load_state (w : FsWorld) (filename : String) : Except AppError String :=
  match w.get filename with
  | none => .error (.InvalidPath filename)
  | some fd => .ok fd.content

/-- `StatePersistenceManager::delete_state`: remove the file only when it
exists; a missing file is success. -/
def delete_state (w : FsWorld) (filename : String) : Option AppError × FsWorld :=
  if w.exists filename then
    if w.removeOk then (none, w.remove filename)
    else (some (.FileSystem "remove failed"), w)
  else (none, w)

/-- `StatePersistenceManager::restore_from_backup` /
`get_latest_backup_path`: load the newest listed backup, `Internal` when the
listing is empty. -/
def restore_from_backup (w : FsWorld) (filename : String) : Except AppError String :=
  match (list_backups w filename).head? with
  | none => .error (.Internal "No backup files found")
  | some b => .ok b.2.content

/-- `StatePersistenceManager::state_exists`. -/
def state_exists (w : FsWorld) (filename : String) : Bool :=
  w.exists filename

/-- A concrete tab used by witnesses and counterexamples. -/
def tabNamed (id : String) : TabState :=
  TabState.new id id "/" 0

/-- The empty managed directory with a fault-free filesystem. -/
def cleanWorld : FsWorld :=
  { files := [], copyOk := true, removeOk := true }

/-- Every directory entry precedes every non-directory entry. -/
def dirsFirst (l : List FileEntry) : Prop :=
  l.Pairwise fun u v => v.file_type = .Directory → u.file_type = .Directory

/-- A concrete file entry for witnesses. -/
def sampleFile : FileEntry :=
  { name := "a.txt", path := "a.txt", file_type := .File, size := 1, modified := none }

/-- A concrete directory entry for witnesses. -/
def sampleDir : FileEntry :=
  { name := "d", path := "d", file_type := .Directory, size := 0, modified := none }

/-- A filter accepting everything, for witnesses. -/
def openFilter : FilterCriteria :=
  { show_hidden := true, name_filter := none, extension_filter := none
    min_size := none, max_size := none }

/-- Name criterion, ascending, folders first — a concrete configuration. -/
def cfgNameAsc : SortConfig :=
  { criteria := .Name, direction := .Ascending, folders_first := true }

/-- A path-validation oracle accepting every path, for witnesses. -/
def validAll : String → Bool := fun _ => true

/-- The tab operations of the claim: add, remove, set-active. -/
inductive TabOp where
  | add (t : TabState)
  | remove (id : String)
  | setActive (id : String)
  deriving Repr

/-- Apply one tab operation at a given instant (the state component of the
fallible operations, per the source's in-place mutation). -/
def applyTabOp (s : AppState) (op : TabOp) (now : Nat) : AppState :=
  match op with
  | .add t => s.add_tab t now
  | .remove id => (s.remove_tab id now).2
  | .setActive id => (s.set_active_tab id now).2

/-- Run a timed sequence of tab operations. -/
def runTabOps (s : AppState) : List (TabOp × Nat) → AppState
  | [] => s
  | (op, now) :: rest => runTabOps (applyTabOp s op now) rest

/-- An operation is legal when it succeeds and, for `add`, the new id is fresh
(the source's `add_tab` never fails, but a duplicate id breaks the invariant —
see the C2 counterexample). -/
def TabOpLegal (s : AppState) : TabOp → Prop
  | .add t => ∀ u ∈ s.tabs, u.id ≠ t.id
  | .remove id => ∃ u ∈ s.tabs, u.id = id
  | .setActive id => ∃ u ∈ s.tabs, u.id = id

/-- Every operation of the timed sequence is legal in the state it meets. -/
def TabOpsLegal (s : AppState) : List (TabOp × Nat) → Prop
  | [] => True
  | (op, now) :: rest => TabOpLegal s op ∧ TabOpsLegal (applyTabOp s op now) rest

/-- The tab invariant: tab ids are pairwise distinct, and either the list is
empty with no active id, or the active id names a present tab and a tab is
active exactly when it carries that id. -/
def TabInv (s : AppState) : Prop :=
  (s.tabs.map TabState.id).Nodup ∧
  ((s.tabs = [] ∧ s.active_tab_id = none) ∨
   (∃ id, s.active_tab_id = some id ∧
     (∃ t ∈ s.tabs, t.id = id) ∧
     (∀ t ∈ s.tabs, t.active = true ↔ t.id = id)))

/-! ## Specification-side name order (transcribed from the spec's words, to be
compared with the source embedding `compare_names`) -/

/-- The spec's digit-run value: parse the run as an unsigned integer, treating
unparsable or overflowing (beyond `u64`) runs as zero. -/
def specDigitValue (run : List Char) : Nat :=
  let v := Nat.ofDigits 10 ((run.map fun c => c.toNat - '0'.toNat).reverse)
  if v < 2 ^ 64 then v else 0

/-- The spec's walk, transcribed: when both current characters are decimal
digits, consume the maximal digit run on each side and compare the values
numerically; otherwise compare the characters by code point; the side that
runs out of characters first sorts earlier. -/
def specNaturalOrder : List Char → List Char → Ordering
  | [], [] => .eq
  | [], _ :: _ => .lt
  | _ :: _, [] => .gt
  | x :: xs, y :: ys =>
    if h : x.isDigit && y.isDigit then
      let va := specDigitValue ((x :: xs).takeWhile Char.isDigit)
      let vb := specDigitValue ((y :: ys).takeWhile Char.isDigit)
      if va < vb then .lt
      else if vb < va then .gt
      else specNaturalOrder ((x :: xs).dropWhile Char.isDigit)
             ((y :: ys).dropWhile Char.isDigit)
    else
      match compare x y with
      | .eq => specNaturalOrder xs ys
      | o => o
termination_by a b => a.length + b.length
decreasing_by
  · simp only [Bool.and_eq_true] at h
    rw [List.dropWhile_cons_of_pos h.1, List.dropWhile_cons_of_pos h.2]
    refine lt_of_le_of_lt
      (Nat.add_le_add (List.dropWhile_sublist _).length_le
        (List.dropWhile_sublist _).length_le) ?_
    simp only [List.length_cons]
    omega
  · simp only [List.length_cons]; omega

/-- The spec's name sort key order: the walk applied after case folding. -/
def specNameOrder (a b : String) : Ordering :=
  specNaturalOrder (rustLower a) (rustLower b)

/-! ## Helper lemmas -/

theorem digitRun_eq_takeWhile_dropWhile (l : List Char) :
    digitRun l = (l.takeWhile Char.isDigit, l.dropWhile Char.isDigit) := by
  induction l with
  | nil => rfl
  | cons c cs ih =>
    by_cases h : c.isDigit
    · simp [digitRun, List.takeWhile_cons, List.dropWhile_cons, h, ih]
    · simp [digitRun, List.takeWhile_cons, List.dropWhile_cons, h]

theorem foldl_digit_value (l : List Char) (acc : Nat) :
    l.foldl (fun a c => a * 10 + (c.toNat - '0'.toNat)) acc =
      acc * 10 ^ l.length +
        Nat.ofDigits 10 ((l.map fun c => c.toNat - '0'.toNat).reverse) := by
  induction l generalizing acc with
  | nil => simp
  | cons c cs ih =>
    simp only [List.foldl_cons, ih, List.map_cons, List.reverse_cons,
      Nat.ofDigits_append, Nat.ofDigits_singleton, List.length_reverse,
      List.length_map, List.length_cons]
    ring

theorem parseU64_eq_specDigitValue (l : List Char) :
    parseU64 l = specDigitValue l := by
  cases l with
  | nil => simp [parseU64, specDigitValue, Nat.ofDigits]
  | cons c cs =>
    simp only [parseU64, specDigitValue, foldl_digit_value, if_neg
      (List.cons_ne_nil c cs)]
    simp

theorem natural_sort_compare_eq_spec (a b : List Char) :
    natural_sort_compare a b = specNaturalOrder a b := by
  induction a, b using natural_sort_compare.induct with
  | case1 => simp [natural_sort_compare, specNaturalOrder]
  | case2 c cs => simp [natural_sort_compare, specNaturalOrder]
  | case3 c cs => simp [natural_sort_compare, specNaturalOrder]
  | case4 x xs y ys h ap bp hcmp ih =>
    simp only [ap, bp, digitRun_eq_takeWhile_dropWhile,
      parseU64_eq_specDigitValue] at hcmp ih
    have hveq : specDigitValue ((x :: xs).takeWhile Char.isDigit) =
        specDigitValue ((y :: ys).takeWhile Char.isDigit) :=
      Nat.compare_eq_eq.mp hcmp
    simp only [natural_sort_compare, specNaturalOrder, dif_pos h,
      digitRun_eq_takeWhile_dropWhile, parseU64_eq_specDigitValue]
    rw [hcmp]
    simp [hveq, ih]
  | case5 x xs y ys h ap bp hne =>
    simp only [ap, bp, digitRun_eq_takeWhile_dropWhile,
      parseU64_eq_specDigitValue] at hne
    simp only [natural_sort_compare, specNaturalOrder, dif_pos h,
      digitRun_eq_takeWhile_dropWhile, parseU64_eq_specDigitValue]
    rcases hc : compare (specDigitValue ((x :: xs).takeWhile Char.isDigit))
        (specDigitValue ((y :: ys).takeWhile Char.isDigit)) with _ | _ | _
    · rw [if_pos (Nat.compare_eq_lt.mp hc)]
    · exact absurd hc hne
    · have hgt := Nat.compare_eq_gt.mp hc
      rw [if_neg (by omega), if_pos hgt]
  | case6 x xs y ys h hcmp ih =>
    simp only [natural_sort_compare, specNaturalOrder, dif_neg h]
    rw [hcmp]
    exact ih
  | case7 x xs y ys h hne =>
    simp only [natural_sort_compare, specNaturalOrder, dif_neg h]

theorem compare_names_eq_specNameOrder (a b : String) :
    compare_names a b = specNameOrder a b :=
  natural_sort_compare_eq_spec (rustLower a) (rustLower b)

/-- Histories invariant: the two history stacks together never hold more than
50 entries. -/
def navInv (s : FileNavigationState) : Prop :=
  s.history_back.length + s.history_forward.length ≤ 50

theorem navStep_inv (valid : String → Bool) (cfg : FileNavigationConfig)
    (s : FileNavigationState) (op : NavOp) (h : navInv s) :
    navInv (navStep valid cfg s op) := by
  cases op with
  | nav p =>
    show navInv (navigate_to valid cfg s p).2
    unfold navigate_to
    by_cases hv : valid p
    · simp only [hv, Bool.not_true, Bool.false_eq_true, if_false]
      by_cases hc : cfg.enable_history = true ∧ s.current_path ≠ p
      · rw [if_pos hc]
        unfold navInv at h ⊢
        simp only [List.length_append, List.length_cons, List.length_nil]
        by_cases hlen : s.history_back.length + 1 > 50
        · rw [if_pos hlen]
          simp only [List.length_drop, List.length_append, List.length_cons,
            List.length_nil]
          omega
        · rw [if_neg hlen]
          simp only [List.length_append, List.length_cons, List.length_nil]
          omega
      · simp only [hc, if_false]
        exact h
    · simp only [hv]
      simpa using h
  | back =>
    show navInv (go_back cfg s).2
    unfold go_back
    by_cases he : cfg.enable_history
    · simp only [he, Bool.not_true, Bool.false_eq_true, if_false]
      cases hl : s.history_back.getLast? with
      | none => exact h
      | some p =>
        have hne : s.history_back ≠ [] := by
          intro hnil; rw [hnil] at hl; simp at hl
        unfold navInv at h ⊢
        simp only [List.length_dropLast, List.length_append, List.length_cons,
          List.length_nil]
        have : 0 < s.history_back.length := List.length_pos.mpr hne
        omega
    · simp only [he]
      simpa using h
  | forward =>
    show navInv (go_forward cfg s).2
    unfold go_forward
    by_cases he : cfg.enable_history
    · simp only [he, Bool.not_true, Bool.false_eq_true, if_false]
      cases hl : s.history_forward.getLast? with
      | none => exact h
      | some p =>
        have hne : s.history_forward ≠ [] := by
          intro hnil; rw [hnil] at hl; simp at hl
        unfold navInv at h ⊢
        simp only [List.length_dropLast, List.length_append, List.length_cons,
          List.length_nil]
        have : 0 < s.history_forward.length := List.length_pos.mpr hne
        omega
    · simp only [he]
      simpa using h

theorem navRun_inv (valid : String → Bool) (cfg : FileNavigationConfig)
    (s : FileNavigationState) (ops : List NavOp) (h : navInv s) :
    navInv (navRun valid cfg s ops) := by
  induction ops generalizing s with
  | nil => exact h
  | cons op ops ih => exact ih _ (navStep_inv valid cfg s op h)

theorem map_id_deactivate (l : List TabState) :
    (l.map fun t => { t with active := false }).map TabState.id =
      l.map TabState.id := by
  rw [List.map_map]
  rfl

theorem map_eraseIdx' {α β : Type} (f : α → β) (l : List α) (k : Nat) :
    (l.eraseIdx k).map f = (l.map f).eraseIdx k := by
  rw [List.eraseIdx_eq_take_drop_succ, List.eraseIdx_eq_take_drop_succ,
    List.map_append, List.map_take, List.map_drop]

theorem getElem_not_mem_eraseIdx {α : Type} (l : List α) (k : Nat)
    (hk : k < l.length) (hnd : l.Nodup) : l[k] ∉ l.eraseIdx k := by
  have hdecomp : l.take k ++ l[k] :: l.drop (k + 1) = l := by
    rw [← List.drop_eq_getElem_cons hk, List.take_append_drop]
  rw [List.eraseIdx_eq_take_drop_succ]
  intro hmem
  rw [← hdecomp] at hnd
  obtain ⟨-, h2, hdisj⟩ := List.nodup_append.mp hnd
  rcases List.mem_append.mp hmem with h1 | h3
  · exact hdisj h1 (List.mem_cons_self _ _)
  · exact (List.nodup_cons.mp h2).1 h3

theorem mem_eraseIdx_of_ne {α : Type} (l : List α) (k : Nat) (hk : k < l.length)
    (t : α) (ht : t ∈ l) (hne : t ≠ l[k]) : t ∈ l.eraseIdx k := by
  rw [List.eraseIdx_eq_take_drop_succ]
  have hdecomp : l.take k ++ l[k] :: l.drop (k + 1) = l := by
    rw [← List.drop_eq_getElem_cons hk, List.take_append_drop]
  rw [← hdecomp] at ht
  rcases List.mem_append.mp ht with h1 | h2
  · exact List.mem_append_left _ h1
  · rcases List.mem_cons.mp h2 with rfl | h3
    · exact absurd rfl hne
    · exact List.mem_append_right _ h3

theorem activateFirst_spec (id : String) (l : List TabState)
    (hin : ∀ t ∈ l, t.active = false)
    (hnd : (l.map TabState.id).Nodup)
    (hmem : ∃ t ∈ l, t.id = id) :
    ∃ l', activateFirst id l = some l' ∧
      l'.map TabState.id = l.map TabState.id ∧
      (∃ t ∈ l', t.id = id) ∧
      (∀ t ∈ l', t.active = true ↔ t.id = id) := by
  induction l with
  | nil => simp at hmem
  | cons u us ih =>
    by_cases hu : u.id = id
    · refine ⟨{ u with active := true } :: us, ?_, ?_, ?_, ?_⟩
      · simp [activateFirst, hu]
      · simp
      · exact ⟨_, List.mem_cons_self _ _, hu⟩
      · intro t ht
        rcases List.mem_cons.mp ht with rfl | hts
        · simp [hu]
        · have hfalse := hin t (List.mem_cons_of_mem _ hts)
          have hne : t.id ≠ id := by
            intro hcontra
            have hdup : u.id ∈ us.map TabState.id := by
              rw [hu, ← hcontra]
              exact List.mem_map_of_mem _ hts
            exact (List.nodup_cons.mp (by simpa using hnd)).1 hdup
          simp [hfalse, hne]
    · have hm' : ∃ t ∈ us, t.id = id := by
        rcases hmem with ⟨t, ht, hid⟩
        rcases List.mem_cons.mp ht with rfl | hts
        · exact absurd hid hu
        · exact ⟨t, hts, hid⟩
      obtain ⟨l'', heq, hids, hex, hiff⟩ :=
        ih (fun t ht => hin t (List.mem_cons_of_mem _ ht))
          (List.nodup_cons.mp (by simpa using hnd)).2 hm'
      refine ⟨u :: l'', ?_, ?_, ?_, ?_⟩
      · simp [activateFirst, hu, heq]
      · simp [hids]
      · rcases hex with ⟨t, ht, hid⟩
        exact ⟨t, List.mem_cons_of_mem _ ht, hid⟩
      · intro t ht
        rcases List.mem_cons.mp ht with rfl | hts
        · simp [hin t (List.mem_cons_self _ _), hu]
        · exact hiff t hts

theorem map_id_set_activate (l : List TabState) (j : Nat) (hj : j < l.length) :
    (l.set j { l[j] with active := true }).map TabState.id =
      l.map TabState.id := by
  apply List.ext_getElem
  · simp
  · intro i h1 h2
    simp only [List.getElem_map, List.getElem_set]
    split
    · rename_i heq
      subst heq
      rfl
    · rfl

theorem applyTabOp_inv (s : AppState) (op : TabOp) (now : Nat)
    (hInv : TabInv s) (hleg : TabOpLegal s op) : TabInv (applyTabOp s op now) := by
  obtain ⟨hnd, hdisj⟩ := hInv
  cases op with
  | add t =>
    refine ⟨?_, Or.inr ⟨t.id, rfl, ?_, ?_⟩⟩
    · simp only [applyTabOp, AppState.add_tab, List.map_append,
        map_id_deactivate]
      rw [List.nodup_append]
      refine ⟨hnd, by simp, ?_⟩
      intro a ha hb
      rcases List.mem_map.mp ha with ⟨u, hu, rfl⟩
      exact hleg u hu (by simpa using hb)
    · exact ⟨{ t with active := true }, by simp [applyTabOp, AppState.add_tab], rfl⟩
    · intro u hu
      simp only [applyTabOp, AppState.add_tab] at hu
      rcases List.mem_append.mp hu with h1 | h2
      · rcases List.mem_map.mp h1 with ⟨v, hv, rfl⟩
        simp only [show ({ v with active := false } : TabState).active = false
          from rfl, Bool.false_eq_true, false_iff]
        exact hleg v hv
      · rw [List.mem_singleton.mp h2]
        simp
  | setActive id =>
    obtain ⟨u0, hu0, hu0id⟩ := hleg
    have hin : ∀ t ∈ (s.tabs.map fun t => { t with active := false }),
        t.active = false := by
      intro t ht
      rcases List.mem_map.mp ht with ⟨v, hv, rfl⟩
      rfl
    have hnd' : ((s.tabs.map fun t => { t with active := false }).map
        TabState.id).Nodup := by
      rw [map_id_deactivate]
      exact hnd
    have hmem : ∃ t ∈ (s.tabs.map fun t => { t with active := false }),
        t.id = id :=
      ⟨{ u0 with active := false }, List.mem_map_of_mem _ hu0, hu0id⟩
    obtain ⟨l', heq, hids, hex, hiff⟩ := activateFirst_spec id _ hin hnd' hmem
    simp only [applyTabOp, AppState.set_active_tab, heq]
    refine ⟨?_, Or.inr ⟨id, rfl, hex, hiff⟩⟩
    rw [hids, map_id_deactivate]
    exact hnd
  | remove id =>
    obtain ⟨u0, hu0, hu0id⟩ := hleg
    have hfind : s.tabs.findIdx? (fun t => t.id == id) =
        some (s.tabs.findIdx (fun t => t.id == id)) :=
      List.findIdx?_eq_some_of_exists ⟨u0, hu0, by simp [hu0id]⟩
    obtain ⟨hklt, hpk, -⟩ := List.findIdx?_eq_some_iff_getElem.mp hfind
    have hkid : (s.tabs[s.tabs.findIdx (fun t => t.id == id)]).id = id := by
      simpa using hpk
    simp only [applyTabOp, AppState.remove_tab, hfind]
    by_cases hact : s.active_tab_id = some id
    · rw [if_pos hact]
      rcases hdisj with ⟨hempty, -⟩ | ⟨aid, hsome, -, hiffa⟩
      · rw [hempty] at hu0
        simp at hu0
      · have haid : aid = id := by
          rw [hact] at hsome
          exact (Option.some.injEq _ _ ▸ hsome).symm
        subst haid
        by_cases hemp : s.tabs.eraseIdx (s.tabs.findIdx (fun t => t.id == aid)) = []
        · rw [if_neg (fun hcon => hcon hemp)]
          exact ⟨by simp [hemp], Or.inl ⟨hemp, rfl⟩⟩
        · rw [if_pos hemp]
          have hjlt : (if s.tabs.findIdx (fun t => t.id == aid) > 0 then
              s.tabs.findIdx (fun t => t.id == aid) - 1 else 0) <
              (s.tabs.eraseIdx (s.tabs.findIdx (fun t => t.id == aid))).length := by
            have hpos := List.length_pos.mpr hemp
            rw [List.length_eraseIdx] at hpos ⊢
            simp only [hklt, if_true] at hpos ⊢
            split <;> omega
          have hget : (s.tabs.eraseIdx
              (s.tabs.findIdx (fun t => t.id == aid)))[if s.tabs.findIdx
                (fun t => t.id == aid) > 0 then
                s.tabs.findIdx (fun t => t.id == aid) - 1 else 0]? =
              some ((s.tabs.eraseIdx
                (s.tabs.findIdx (fun t => t.id == aid)))[if s.tabs.findIdx
                  (fun t => t.id == aid) > 0 then
                  s.tabs.findIdx (fun t => t.id == aid) - 1 else 0]) :=
            List.getElem?_eq_getElem hjlt
          rw [hget]
          have hallinact : ∀ t ∈ s.tabs.eraseIdx
              (s.tabs.findIdx (fun t => t.id == aid)), t.active = false := by
            intro t ht
            have htm : t ∈ s.tabs := (List.eraseIdx_sublist _ _).subset ht
            by_contra hcon
            have hta : t.active = true := by
              cases hta : t.active
              · exact absurd hta hcon
              · rfl
            have hid' : t.id = aid := (hiffa t htm).mp hta
            have htid : t.id ∈ (s.tabs.eraseIdx (s.tabs.findIdx
                (fun t => t.id == aid))).map TabState.id :=
              List.mem_map_of_mem _ ht
            have hmemid : (s.tabs[s.tabs.findIdx (fun t => t.id == aid)]).id ∈
                (s.tabs.eraseIdx (s.tabs.findIdx (fun t => t.id == aid))).map
                  TabState.id := by
              rw [show (s.tabs[s.tabs.findIdx (fun t => t.id == aid)]).id = t.id
                from by rw [hkid, hid']]
              exact htid
            rw [map_eraseIdx'] at hmemid
            have hklt' : s.tabs.findIdx (fun t => t.id == aid) <
                (s.tabs.map TabState.id).length := by
              simpa using hklt
            have hgm : (s.tabs.map TabState.id)[s.tabs.findIdx
                (fun t => t.id == aid)] =
                (s.tabs[s.tabs.findIdx (fun t => t.id == aid)]).id :=
              List.getElem_map _
            rw [← hgm] at hmemid
            exact getElem_not_mem_eraseIdx _ _ hklt' hnd hmemid
          constructor
          · rw [map_id_set_activate _ _ hjlt, map_eraseIdx']
            exact (List.eraseIdx_sublist _ _).nodup hnd
          · refine Or.inr ⟨((s.tabs.eraseIdx (s.tabs.findIdx
              (fun t => t.id == aid)))[if s.tabs.findIdx
                (fun t => t.id == aid) > 0 then
                s.tabs.findIdx (fun t => t.id == aid) - 1 else 0]).id,
              rfl, ?_, ?_⟩
            · exact ⟨_, List.mem_set _ _ (by simpa using hjlt) _, rfl⟩
            · intro t ht
              rcases List.mem_iff_getElem.mp ht with ⟨i, hi, hti⟩
              rw [List.getElem_set] at hti
              by_cases hij : (if s.tabs.findIdx (fun t => t.id == aid) > 0 then
                  s.tabs.findIdx (fun t => t.id == aid) - 1 else 0) = i
              · rw [if_pos hij] at hti
                subst hti
                simp
              · rw [if_neg hij] at hti
                subst hti
                have hi' : i < (s.tabs.eraseIdx (s.tabs.findIdx
                    (fun t => t.id == aid))).length := by
                  simpa using hi
                have hinact := hallinact _ (List.getElem_mem hi')
                simp only [hinact, Bool.false_eq_true, false_iff]
                intro hid'
                have hndid : ((s.tabs.eraseIdx (s.tabs.findIdx
                    (fun t => t.id == aid))).map TabState.id).Nodup := by
                  rw [map_eraseIdx']
                  exact (List.eraseIdx_sublist _ _).nodup hnd
                have hndelem := List.Nodup.of_map TabState.id hndid
                have heq2 : (s.tabs.eraseIdx (s.tabs.findIdx
                    (fun t => t.id == aid)))[i] = (s.tabs.eraseIdx
                      (s.tabs.findIdx (fun t => t.id == aid)))[if
                        s.tabs.findIdx (fun t => t.id == aid) > 0 then
                        s.tabs.findIdx (fun t => t.id == aid) - 1 else 0] :=
                  List.inj_on_of_nodup_map hndid
                    (List.getElem_mem hi') (List.getElem_mem hjlt) hid'
                exact hij (hndelem.getElem_inj_iff.mp heq2).symm
    · rw [if_neg hact]
      rcases hdisj with ⟨hempty, -⟩ | ⟨aid, hsome, ⟨ta, hta, htaid⟩, hiffa⟩
      · rw [hempty] at hu0
        simp at hu0
      · have haidne : aid ≠ id := fun hcon => hact (by rw [← hcon]; exact hsome)
        refine ⟨?_, Or.inr ⟨aid, hsome, ⟨ta, ?_, htaid⟩, ?_⟩⟩
        · rw [map_eraseIdx']
          exact (List.eraseIdx_sublist _ _).nodup hnd
        · refine mem_eraseIdx_of_ne _ _ hklt ta hta ?_
          intro hcon
          apply haidne
          rw [← htaid, hcon, hkid]
        · intro t ht
          exact hiffa t ((List.eraseIdx_sublist _ _).subset ht)

theorem TabInv_runTabOps (s : AppState) (ops : List (TabOp × Nat))
    (h : TabInv s) (hlegal : TabOpsLegal s ops) : TabInv (runTabOps s ops) := by
  induction ops generalizing s with
  | nil => exact h
  | cons p rest ih =>
    obtain ⟨op, now⟩ := p
    exact ih _ (applyTabOp_inv s op now h hlegal.1) hlegal.2

theorem TabInv_conclusions (s : AppState) (h : TabInv s) :
    (s.tabs.filter (fun t => t.active)).length ≤ 1 ∧
    (s.active_tab_id = none ↔ s.tabs = []) ∧
    (∀ id, s.active_tab_id = some id →
      ∃ t, t ∈ s.tabs ∧ t.active = true ∧ t.id = id ∧
        ∀ u ∈ s.tabs, u.active = true → u = t) := by
  obtain ⟨hnd, hdisj⟩ := h
  rcases hdisj with ⟨hemp, hnone⟩ | ⟨aid, hsome, ⟨ta, hta, htaid⟩, hiff⟩
  · refine ⟨by simp [hemp], by simp [hemp, hnone], fun id hid => ?_⟩
    rw [hnone] at hid
    exact absurd hid (by simp)
  · refine ⟨?_, ⟨?_, ?_⟩, ?_⟩
    · have hfilter : s.tabs.filter (fun t => t.active) =
          s.tabs.filter (fun t => t.id == aid) := by
        apply List.filter_congr
        intro t ht
        by_cases h1 : t.id = aid
        · simp [h1, (hiff t ht).mpr h1]
        · have h2 : t.active = false := by
            cases hb : t.active
            · rfl
            · exact absurd ((hiff t ht).mp hb) h1
          simp [h1, h2]
      rw [hfilter, ← List.countP_eq_length_filter]
      have hcm : s.tabs.countP (fun t => t.id == aid) =
          (s.tabs.map TabState.id).count aid := by
        rw [List.count_eq_countP, List.countP_map]
        rfl
      rw [hcm]
      exact List.nodup_iff_count_le_one.mp hnd aid
    · intro h
      rw [hsome] at h
      exact absurd h (by simp)
    · intro h
      rw [h] at hta
      simp at hta
    · intro id hid
      have haid : aid = id := by
        rw [hsome] at hid
        exact Option.some.inj hid
      subst haid
      refine ⟨ta, hta, (hiff ta hta).mpr htaid, htaid, ?_⟩
      intro u hu hau
      have huid : u.id = aid := (hiff u hu).mp hau
      exact List.inj_on_of_nodup_map hnd hu hta (by rw [huid, htaid])

theorem compare_entries_dir_lt (cfg : SortConfig) (a b : FileEntry)
    (hf : cfg.folders_first = true) (ha : a.file_type = .Directory)
    (hb : b.file_type ≠ .Directory) : compare_entries cfg a b = .lt := by
  cases hb' : b.file_type <;>
    simp_all [compare_entries, hf, ha]

theorem compare_entries_file_gt (cfg : SortConfig) (a b : FileEntry)
    (hf : cfg.folders_first = true) (ha : a.file_type ≠ .Directory)
    (hb : b.file_type = .Directory) : compare_entries cfg a b = .gt := by
  cases ha' : a.file_type <;>
    simp_all [compare_entries, hf, hb]

theorem mem_insertBy {α : Type} (cmp : α → α → Ordering) (x z : α) (l : List α)
    (hz : z ∈ insertBy cmp x l) : z = x ∨ z ∈ l := by
  induction l with
  | nil => simpa [insertBy] using hz
  | cons y ys ih =>
    rw [insertBy] at hz
    by_cases hgt : cmp x y = .gt
    · rw [if_pos hgt] at hz
      rcases List.mem_cons.mp hz with rfl | hz'
      · exact Or.inr (List.mem_cons_self _ _)
      · rcases ih hz' with h | h
        · exact Or.inl h
        · exact Or.inr (List.mem_cons_of_mem _ h)
    · rw [if_neg hgt] at hz
      rcases List.mem_cons.mp hz with rfl | hz'
      · exact Or.inl rfl
      · exact Or.inr hz'

theorem dirsFirst_insertBy (cfg : SortConfig) (hf : cfg.folders_first = true)
    (x : FileEntry) (l : List FileEntry) (hl : dirsFirst l) :
    dirsFirst (insertBy (compare_entries cfg) x l) := by
  induction l with
  | nil => simp [insertBy, dirsFirst]
  | cons y ys ih =>
    rcases List.pairwise_cons.mp hl with ⟨hy, hys⟩
    rw [insertBy]
    by_cases hgt : compare_entries cfg x y = .gt
    · rw [if_pos hgt]
      refine List.pairwise_cons.mpr ⟨?_, ih hys⟩
      intro z hz
      rcases mem_insertBy _ x z ys hz with rfl | hzys
      · intro hxdir
        by_contra hydir
        rw [compare_entries_dir_lt cfg z y hf hxdir hydir] at hgt
        exact absurd hgt (by simp)
      · exact hy z hzys
    · rw [if_neg hgt]
      refine List.pairwise_cons.mpr ⟨?_, hl⟩
      intro z hz
      rcases List.mem_cons.mp hz with rfl | hzys
      · intro hzdir
        by_contra hxdir
        exact hgt (compare_entries_file_gt cfg x z hf hxdir hzdir)
      · intro hzdir
        have hydir := hy z hzys hzdir
        by_contra hxdir
        exact hgt (compare_entries_file_gt cfg x y hf hxdir hydir)

theorem dirsFirst_sortBy (cfg : SortConfig) (hf : cfg.folders_first = true)
    (l : List FileEntry) : dirsFirst (sortBy (compare_entries cfg) l) := by
  induction l with
  | nil => simp [sortBy, dirsFirst]
  | cons x xs ih => exact dirsFirst_insertBy cfg hf x _ ih

theorem activateFirst_eq_none (tab_id : String) (l : List TabState)
    (h : ∀ t ∈ l, t.id ≠ tab_id) : activateFirst tab_id l = none := by
  induction l with
  | nil => rfl
  | cons t ts ih =>
    have ht : t.id ≠ tab_id := h t (List.mem_cons_self t ts)
    simp only [activateFirst, beq_iff_eq, if_neg ht,
      ih (fun u hu => h u (List.mem_cons_of_mem t hu))]
    rfl

theorem findIdx?_eq_none_of_not_found (tab_id : String) (l : List TabState)
    (h : ∀ t ∈ l, t.id ≠ tab_id) :
    l.findIdx? (fun t => t.id == tab_id) = none := by
  rw [List.findIdx?_eq_none_iff]
  intro t ht
  simp [h t ht]

/-! ## Claim theorems -/

/-- **C10** (confirmed).  `delete_state` on a key with no existing file returns
success and leaves the managed directory unchanged; it fails only when the key
exists and removing it fails. -/
theorem C10_delete_missing_ok :
    (∀ (w : FsWorld) (key : String), w.exists key = false →
      delete_state w key = (none, w)) ∧
    (∀ (w : FsWorld) (key : String) (e : AppError),
      (delete_state w key).1 = some e →
      w.exists key = true ∧ w.removeOk = false) := by
  constructor
  · intro w key h
    simp [delete_state, h]
  · intro w key e h
    by_cases hex : w.exists key = true
    · by_cases hrm : w.removeOk = true
      · simp [delete_state, hex, hrm] at h
      · exact ⟨hex, by simpa using hrm⟩
    · simp [delete_state, hex] at h

/-- Witness for C10 at a concrete world and key. -/
theorem C10_delete_missing_ok_witness :
    delete_state { files := [], copyOk := true, removeOk := true } "k" =
      (none, { files := [], copyOk := true, removeOk := true }) :=
  C10_delete_missing_ok.1 { files := [], copyOk := true, removeOk := true } "k" (by decide)

/-- **C9** (confirmed).  When a file exists at the key and the backup copy
fails, `save_state` reports the copy failure and the managed directory —
in particular the live file at the key — is exactly as before the call. -/
theorem C9_failed_backup_preserves_file
    (w : FsWorld) (json key : String) (now max_backups : Nat)
    (hex : w.exists key = true) (hstem : (fileStemOf key).isSome)
    (hcopy : w.copyOk = false) :
    save_state w json key now max_backups =
      (some (.FileSystem "copy failed"), w) := by
  obtain ⟨stem, hs⟩ := Option.isSome_iff_exists.mp hstem
  simp [save_state, create_backup, hex, hs, hcopy]

/-- Witness for C9: one existing file, a failing copy. -/
theorem C9_failed_backup_preserves_file_witness :
    save_state
      { files := [("s.json", { content := "v1", mtime := 0 })],
        copyOk := false, removeOk := true } "v2" "s.json" 1 5 =
      (some (.FileSystem "copy failed"),
        { files := [("s.json", { content := "v1", mtime := 0 })],
          copyOk := false, removeOk := true }) :=
  C9_failed_backup_preserves_file
    { files := [("s.json", { content := "v1", mtime := 0 })],
      copyOk := false, removeOk := true }
    "v2" "s.json" 1 5 (by decide) (by decide) (by decide)

/-- **C2** (counterexample).  The invariant fails on a plain sequence of
operations, all succeeding: `add_tab` with a duplicate id followed by
`remove_tab` of that id leaves TWO tabs with `active = true`, because
`remove_tab` drops the first tab carrying the id (the inactive duplicate) and
then activates a neighbour of the removed position while the genuinely active
tab is still present. -/
theorem C2_counterexample :
    ((runTabOps (AppState.mkDefault 0)
      [(TabOp.add (tabNamed "a"), 1), (TabOp.add (tabNamed "b"), 2),
       (TabOp.add (tabNamed "a"), 3), (TabOp.remove "a", 4)]).tabs.filter
        (fun t => t.active)).length = 2 := by
  decide

/-- **C2** (amended).  For every sequence of add/remove/set-active operations
from the default state in which each added tab carries an id distinct from all
current tabs' ids and each removal/activation names an existing id: at most
one tab is active, the active identifier is `none` iff the tab list is empty,
and when it is `some id` exactly one tab is active, carrying that id. -/
theorem C2_tab_invariant (now0 : Nat) (ops : List (TabOp × Nat))
    (hlegal : TabOpsLegal (AppState.mkDefault now0) ops) :
    ((runTabOps (AppState.mkDefault now0) ops).tabs.filter
        (fun t => t.active)).length ≤ 1 ∧
    ((runTabOps (AppState.mkDefault now0) ops).active_tab_id = none ↔
      (runTabOps (AppState.mkDefault now0) ops).tabs = []) ∧
    (∀ id, (runTabOps (AppState.mkDefault now0) ops).active_tab_id = some id →
      ∃ t, t ∈ (runTabOps (AppState.mkDefault now0) ops).tabs ∧
        t.active = true ∧ t.id = id ∧
        ∀ u ∈ (runTabOps (AppState.mkDefault now0) ops).tabs,
          u.active = true → u = t) :=
  TabInv_conclusions _
    (TabInv_runTabOps _ ops ⟨by simp [AppState.mkDefault], Or.inl ⟨rfl, rfl⟩⟩
      hlegal)

/-- Witness for C2 (amended) at a concrete legal sequence. -/
theorem C2_tab_invariant_witness :
    ((runTabOps (AppState.mkDefault 0)
        [(TabOp.add (tabNamed "a"), 1)]).tabs.filter
        (fun t => t.active)).length ≤ 1 ∧
    ((runTabOps (AppState.mkDefault 0)
        [(TabOp.add (tabNamed "a"), 1)]).active_tab_id = none ↔
      (runTabOps (AppState.mkDefault 0)
        [(TabOp.add (tabNamed "a"), 1)]).tabs = []) ∧
    (∀ id, (runTabOps (AppState.mkDefault 0)
        [(TabOp.add (tabNamed "a"), 1)]).active_tab_id = some id →
      ∃ t, t ∈ (runTabOps (AppState.mkDefault 0)
          [(TabOp.add (tabNamed "a"), 1)]).tabs ∧
        t.active = true ∧ t.id = id ∧
        ∀ u ∈ (runTabOps (AppState.mkDefault 0)
            [(TabOp.add (tabNamed "a"), 1)]).tabs,
          u.active = true → u = t) :=
  C2_tab_invariant 0 [(TabOp.add (tabNamed "a"), 1)]
    ⟨fun u hu => absurd hu (by simp [AppState.mkDefault]), trivial⟩

/-- **C3** (counterexample).  The code has no NotFound error variant at all:
an unknown tab id makes `remove_tab` report `Internal`, a missing state file
makes `load_state` report `InvalidPath`, and an empty backup listing makes
`restore_from_backup` report `Internal` — refuting the claim's "NotFound, not
Internal, not InvalidPath" at concrete inputs. -/
theorem C3_counterexample :
    ((AppState.mkDefault 0).remove_tab "t1" 1).1 =
        some (.Internal "Tab not found: t1") ∧
    load_state { files := [], copyOk := true, removeOk := true } "k.json" =
        .error (.InvalidPath "k.json") ∧
    restore_from_backup { files := [], copyOk := true, removeOk := true } "k.json" =
        .error (.Internal "No backup files found") := by
  refine ⟨rfl, rfl, rfl⟩

/-- **C3** (amended).  Every missing-item failure is reported as follows:
`remove_tab` and `set_active_tab` with an unknown id return
`Internal ("Tab not found: <id>")`, `load_state` on a missing file returns
`InvalidPath`, and `restore_from_backup` with no listed backups returns
`Internal "No backup files found"`. -/
theorem C3_missing_item_errors :
    (∀ (s : AppState) (id : String) (now : Nat), (∀ t ∈ s.tabs, t.id ≠ id) →
      (s.remove_tab id now).1 = some (.Internal ("Tab not found: " ++ id)) ∧
      (s.set_active_tab id now).1 = some (.Internal ("Tab not found: " ++ id))) ∧
    (∀ (w : FsWorld) (key : String), w.exists key = false →
      load_state w key = .error (.InvalidPath key)) ∧
    (∀ (w : FsWorld) (key : String), list_backups w key = [] →
      restore_from_backup w key = .error (.Internal "No backup files found")) := by
  refine ⟨fun s id now h => ⟨?_, ?_⟩, fun w key h => ?_, fun w key h => ?_⟩
  · rw [AppState.remove_tab, findIdx?_eq_none_of_not_found id s.tabs h]
  · rw [AppState.set_active_tab,
      activateFirst_eq_none id _ (by
        intro t ht
        obtain ⟨u, hu, rfl⟩ := List.mem_map.mp ht
        exact h u hu)]
  · have hg : w.get key = none := by
      unfold FsWorld.exists at h
      cases hw : w.get key with
      | none => rfl
      | some fd => rw [hw] at h; simp at h
    rw [load_state, hg]
  · rw [restore_from_backup, h]
    rfl

/-- Witness for C3 at concrete inputs. -/
theorem C3_missing_item_errors_witness :
    ((AppState.mkDefault 0).set_active_tab "zz" 1).1 =
        some (.Internal "Tab not found: zz") ∧
    load_state { files := [], copyOk := true, removeOk := true } "a.json" =
        .error (.InvalidPath "a.json") :=
  ⟨(C3_missing_item_errors.1 (AppState.mkDefault 0) "zz" 1 (by decide)).2,
   C3_missing_item_errors.2.1 { files := [], copyOk := true, removeOk := true }
     "a.json" (by decide)⟩

/-- **C1** (counterexample).  `set_active_tab` with an unknown id clears every
tab's `active` flag before it detects the failure: on a one-tab state with that
tab active the call errors, yet the state after the call differs from the state
before it. -/
theorem C1_counterexample :
    (((AppState.mkDefault 0).add_tab (tabNamed "a") 1).set_active_tab "zz" 2).1.isSome =
        true ∧
    (((AppState.mkDefault 0).add_tab (tabNamed "a") 1).set_active_tab "zz" 2).2 ≠
        (AppState.mkDefault 0).add_tab (tabNamed "a") 1 := by
  decide

/-- **C1** (amended).  A failed `remove_tab` leaves the state exactly as
before the call; a failed `set_active_tab` leaves every field unchanged except
the tabs' `active` flags, which have all been cleared (the §9 partial
mutation). -/
theorem C1_failed_mutation_state (s : AppState) (id : String) (now : Nat) :
    ((s.remove_tab id now).1.isSome → (s.remove_tab id now).2 = s) ∧
    ((s.set_active_tab id now).1.isSome →
      (s.set_active_tab id now).2 =
        { s with tabs := s.tabs.map fun t => { t with active := false } }) := by
  constructor
  · intro h
    rw [AppState.remove_tab] at h ⊢
    match hf : s.tabs.findIdx? (fun t => t.id == id) with
    | none => simp [hf]
    | some i =>
      rw [hf] at h
      simp only at h
      split at h
      · split at h
        · split at h <;> simp at h
        · simp at h
      · simp at h
  · intro h
    rw [AppState.set_active_tab] at h ⊢
    match ha : activateFirst id (s.tabs.map fun t => { t with active := false }) with
    | none => simp [ha]
    | some l => rw [ha] at h; simp at h

/-- Witness for C1 (amended) at a concrete failing `remove_tab`. -/
theorem C1_failed_mutation_state_witness :
    (((AppState.mkDefault 0).add_tab (tabNamed "a") 1).remove_tab "zz" 2).2 =
      (AppState.mkDefault 0).add_tab (tabNamed "a") 1 :=
  (C1_failed_mutation_state ((AppState.mkDefault 0).add_tab (tabNamed "a") 1) "zz" 2).1
    (by decide)

/-- **C8** (code bug, evaluated at the failing input).  `create_backup` names
backups `<stem>.backup.<ts>.json` but `list_backups` searches for the prefix
`<full file name>.backup.`, so for the key `"s.json"` no backup is ever listed:
after three saves with `max_backups = 1` two backup files sit in the directory
(exceeding the maximum), the listing is empty, and `restore_from_backup`
fails — contradicting the repository's own `test_backup_creation`,
`test_backup_cleanup` and `test_restore_from_backup`. -/
theorem C8_backups_accumulate :
    (let w3 := (save_state ((save_state ((save_state cleanWorld
        "v1" "s.json" 1 1).2) "v2" "s.json" 2 1).2) "v3" "s.json" 3 1).2
     ((w3.files.filter (fun f => strStartsWith f.1 "s.backup.")).length = 2 ∧
      list_backups w3 "s.json" = [] ∧
      restore_from_backup w3 "s.json" = .error (.Internal "No backup files found"))) := by
  refine ⟨rfl, rfl, rfl⟩

/-- **C4** (confirmed).  `compare_names` implements exactly the order the
specification describes (`specNameOrder`, transcribed from the spec's words):
digit runs are consumed maximally and compared numerically with overflowing
runs collapsing to zero, other characters compare by code point after case
folding, and the exhausted side sorts earlier; in particular
`file1 < file2 < file10` and `A`/`a` are equal sort keys. -/
theorem C4_natural_name_order :
    (∀ a b : String, compare_names a b = specNameOrder a b) ∧
    compare_names "file1" "file2" = .lt ∧
    compare_names "file2" "file10" = .lt ∧
    compare_names "file1" "file10" = .lt ∧
    compare_names "A" "a" = .eq := by
  refine ⟨fun a b => compare_names_eq_specNameOrder a b, ?_, ?_, ?_, ?_⟩
  all_goals simp [compare_names, rustLower, natural_sort_compare, digitRun, parseU64]
  all_goals rfl

/-- **C5** (confirmed).  With folders-first enabled, every Directory entry
precedes every non-Directory entry in the output of `process_entries`, for
every entry list, criterion and direction; and on a same-partition pair the
direction flag merely swaps the criterion comparison, so it never disturbs the
partition. -/
theorem C5_folders_first_partition (cfg : SortConfig) (fc : FilterCriteria)
    (entries : List FileEntry) (hf : cfg.folders_first = true) :
    dirsFirst (process_entries cfg fc entries) ∧
    (∀ a b : FileEntry, (a.file_type = .Directory ↔ b.file_type = .Directory) →
      compare_entries { cfg with direction := .Descending } a b =
        (compare_entries { cfg with direction := .Ascending } a b).swap) := by
  refine ⟨dirsFirst_sortBy cfg hf _, ?_⟩
  intro a b hab
  by_cases had : a.file_type = .Directory
  · have hbd := hab.mp had
    simp [compare_entries, hf, had, hbd]
  · have hbd : b.file_type ≠ .Directory := fun h => had (hab.mpr h)
    cases ha : a.file_type <;> cases hb : b.file_type <;>
      simp_all [compare_entries, hf]

/-- Witness for C5 at a concrete configuration (Name criterion, descending)
and a concrete file-before-directory input. -/
theorem C5_folders_first_partition_witness :
    dirsFirst (process_entries cfgNameAsc openFilter [sampleFile, sampleDir]) ∧
    (∀ a b : FileEntry, (a.file_type = .Directory ↔ b.file_type = .Directory) →
      compare_entries { cfgNameAsc with direction := .Descending } a b =
        (compare_entries { cfgNameAsc with direction := .Ascending } a b).swap) :=
  C5_folders_first_partition cfgNameAsc openFilter [sampleFile, sampleDir] rfl

/-- **C6** (confirmed).  With history enabled and validation succeeding:
`navigate_to A; navigate_to B; go_back` restores A and makes B the
`go_forward` target; a later `navigate_to C` with `C ≠ A` clears the forward
stack; `navigate_to` pushes the prior current path exactly when the target
differs (trimming the oldest entry past 50); and along every operation
sequence from a fresh controller the back history never exceeds 50 entries. -/
theorem C6_history_semantics (valid : String → Bool) (cfg : FileNavigationConfig)
    (s0 : FileNavigationState) (A B C : String)
    (hh : cfg.enable_history = true)
    (hvA : valid A = true) (hvB : valid B = true) (hvC : valid C = true)
    (hAB : A ≠ B) (hCA : C ≠ A) :
    ((go_back cfg (navigate_to valid cfg (navigate_to valid cfg s0 A).2 B).2).1 =
        none ∧
      (go_back cfg
        (navigate_to valid cfg (navigate_to valid cfg s0 A).2 B).2).2.current_path
        = A ∧
      (go_back cfg
        (navigate_to valid cfg (navigate_to valid cfg s0 A).2 B).2).2.history_forward
        = [B] ∧
      (go_forward cfg (go_back cfg
        (navigate_to valid cfg (navigate_to valid cfg s0 A).2 B).2).2).1 = none ∧
      (go_forward cfg (go_back cfg
        (navigate_to valid cfg (navigate_to valid cfg s0 A).2 B).2).2).2.current_path
        = B ∧
      (navigate_to valid cfg (go_back cfg
        (navigate_to valid cfg (navigate_to valid cfg s0 A).2 B).2).2
          C).2.history_forward = []) ∧
    (∀ (s : FileNavigationState) (p : String), valid p = true →
      (navigate_to valid cfg s p).2.history_back =
        (if s.current_path = p then s.history_back
         else if s.history_back.length + 1 > 50 then
           (s.history_back ++ [s.current_path]).drop 1
         else s.history_back ++ [s.current_path])) ∧
    (∀ (p0 : String) (ops : List NavOp),
      (navRun valid cfg (FileNavigationState.new p0) ops).history_back.length
        ≤ 50) := by
  refine ⟨?_, ?_, ?_⟩
  · -- the A / B / go_back / go_forward / C scenario
    have hA_curr : (navigate_to valid cfg s0 A).2.current_path = A := by
      unfold navigate_to
      simp [hvA]
    generalize hgA : (navigate_to valid cfg s0 A).2 = sA
    rw [hgA] at hA_curr
    have hcondB : cfg.enable_history = true ∧ sA.current_path ≠ B :=
      ⟨hh, by rw [hA_curr]; exact hAB⟩
    have hB_curr : (navigate_to valid cfg sA B).2.current_path = B := by
      unfold navigate_to
      simp [hvB]
    have hB_fwd : (navigate_to valid cfg sA B).2.history_forward = [] := by
      unfold navigate_to
      simp only [hvB, Bool.not_true, Bool.false_eq_true, if_false]
      rw [if_pos hcondB]
    have hB_back : (navigate_to valid cfg sA B).2.history_back.getLast? = some A := by
      unfold navigate_to
      simp only [hvB, Bool.not_true, Bool.false_eq_true, if_false]
      rw [if_pos hcondB, hA_curr]
      by_cases hlen : (sA.history_back ++ [A]).length > 50
      · rw [if_pos hlen, List.drop_append_of_le_length
          (by simp at hlen ⊢; omega), List.getLast?_concat]
      · rw [if_neg hlen, List.getLast?_concat]
    generalize hgB : (navigate_to valid cfg sA B).2 = sB
    rw [hgB] at hB_curr hB_fwd hB_back
    have hgb : go_back cfg sB =
        (none, { sB with
          history_back := sB.history_back.dropLast,
          history_forward := sB.history_forward ++ [sB.current_path],
          current_path := A }) := by
      unfold go_back
      simp [hh, hB_back]
    have hBk : (go_back cfg sB).2 =
        { sB with
          history_back := sB.history_back.dropLast,
          history_forward := [B],
          current_path := A } := by
      rw [hgb]
      simp [hB_fwd, hB_curr]
    rw [hgb]
    refine ⟨rfl, ?_, ?_, ?_, ?_, ?_⟩
    · rfl
    · show sB.history_forward ++ [sB.current_path] = [B]
      rw [hB_fwd, hB_curr]
      rfl
    · rw [← hgb, hBk]
      unfold go_forward
      simp [hh]
    · rw [← hgb, hBk]
      unfold go_forward
      simp [hh]
    · rw [← hgb, hBk]
      unfold navigate_to
      simp only [hvC, Bool.not_true, Bool.false_eq_true, if_false]
      rw [if_pos ⟨hh, show A ≠ C from Ne.symm hCA⟩]
  · -- push exactly when the target differs
    intro s p hv
    unfold navigate_to
    simp only [hv, Bool.not_true, Bool.false_eq_true, if_false]
    by_cases hsp : s.current_path = p
    · rw [if_neg (fun hcontra => hcontra.2 hsp), if_pos hsp]
    · rw [if_pos ⟨hh, hsp⟩, if_neg hsp]
      simp [List.length_append]
  · -- the 50-entry bound along every operation sequence
    intro p0 ops
    have h0 : navInv (FileNavigationState.new p0) := by
      simp [navInv, FileNavigationState.new]
    have := navRun_inv valid cfg (FileNavigationState.new p0) ops h0
    unfold navInv at this
    omega

/-- Witness for C6: the scenario run against the all-accepting validator from
a fresh controller. -/
theorem C6_history_semantics_witness :
    (go_back FileNavigationConfig.mkDefault
      (navigate_to validAll FileNavigationConfig.mkDefault
        (navigate_to validAll FileNavigationConfig.mkDefault
          (FileNavigationState.new "/r") "A").2 "B").2).1 = none :=
  (C6_history_semantics validAll FileNavigationConfig.mkDefault
    (FileNavigationState.new "/r") "A" "B" "C" rfl rfl rfl rfl
    (by decide) (by decide)).1.1

/-- **C7** (confirmed).  Removing the tab the active identifier names succeeds
and reassigns activation to the tab immediately before the removed one
(`k > 0` gives the original index `k - 1`), or to the first remaining tab,
recording that tab's id as active; when the list empties the active identifier
becomes `none`. -/
theorem C7_remove_active_reassigns (s : AppState) (id : String) (now k : Nat)
    (hk : s.tabs.findIdx? (fun t => t.id == id) = some k)
    (hact : s.active_tab_id = some id) :
    (s.remove_tab id now).1 = none ∧
    (s.tabs.eraseIdx k = [] →
      (s.remove_tab id now).2.tabs = [] ∧
      (s.remove_tab id now).2.active_tab_id = none) ∧
    (s.tabs.eraseIdx k ≠ [] →
      ∃ tgt, (s.tabs.eraseIdx k)[if k > 0 then k - 1 else 0]? = some tgt ∧
        (0 < k → s.tabs[k - 1]? = some tgt) ∧
        (s.remove_tab id now).2.active_tab_id = some tgt.id ∧
        (s.remove_tab id now).2.tabs =
          (s.tabs.eraseIdx k).set (if k > 0 then k - 1 else 0)
            { tgt with active := true }) := by
  have hklen : k < s.tabs.length := by
    obtain ⟨h, -⟩ := List.findIdx?_eq_some_iff_getElem.mp hk
    exact h
  by_cases hemp : s.tabs.eraseIdx k = []
  · refine ⟨?_, fun _ => ⟨?_, ?_⟩, fun hne => absurd hemp hne⟩ <;>
      simp [AppState.remove_tab, hk, hact, hemp]
  · have hlen' : (s.tabs.eraseIdx k).length = s.tabs.length - 1 := by
      rw [List.length_eraseIdx]
      simp [hklen]
    have hj : (if k > 0 then k - 1 else 0) < (s.tabs.eraseIdx k).length := by
      have hpos : 0 < (s.tabs.eraseIdx k).length := List.length_pos.mpr hemp
      by_cases hkpos : k > 0
      · simp only [if_pos hkpos]
        omega
      · simp only [if_neg hkpos]
        exact hpos
    have hget : (s.tabs.eraseIdx k)[if k > 0 then k - 1 else 0]? =
        some ((s.tabs.eraseIdx k)[if k > 0 then k - 1 else 0]) :=
      List.getElem?_eq_getElem hj
    refine ⟨?_, fun h => absurd h hemp, fun _ => ⟨_, hget, ?_, ?_, ?_⟩⟩
    · simp [AppState.remove_tab, hk, hact, hemp, hget]
    · intro hkpos
      rw [← hget, List.getElem?_eraseIdx]
      simp only [gt_iff_lt, if_pos hkpos]
      rw [if_pos (by omega : k - 1 < k)]
    · simp [AppState.remove_tab, hk, hact, hemp, hget]
    · simp [AppState.remove_tab, hk, hact, hemp, hget]

/-- Witness for C7: scenario C of the specification —
`add_tab(T1); add_tab(T2); remove_tab(T2)` leaves T1 active, and removing T1
from the resulting single-tab state empties the list and clears the active id. -/
theorem C7_remove_active_reassigns_witness :
    ((((AppState.mkDefault 0).add_tab (tabNamed "T1") 1).add_tab
        (tabNamed "T2") 2).remove_tab "T2" 3).1 = none ∧
    ((((AppState.mkDefault 0).add_tab (tabNamed "T1") 1).add_tab
        (tabNamed "T2") 2).remove_tab "T2" 3).2.active_tab_id = some "T1" ∧
    (((((AppState.mkDefault 0).add_tab (tabNamed "T1") 1).add_tab
        (tabNamed "T2") 2).remove_tab "T2" 3).2.tabs.map
          fun t => (t.id, t.active)) = [("T1", true)] ∧
    (((((AppState.mkDefault 0).add_tab (tabNamed "T1") 1).add_tab
        (tabNamed "T2") 2).remove_tab "T2" 3).2.remove_tab "T1" 4).2.tabs = [] ∧
    (((((AppState.mkDefault 0).add_tab (tabNamed "T1") 1).add_tab
        (tabNamed "T2") 2).remove_tab "T2" 3).2.remove_tab "T1" 4).2.active_tab_id
      = none := by
  refine ⟨(C7_remove_active_reassigns
      (((AppState.mkDefault 0).add_tab (tabNamed "T1") 1).add_tab (tabNamed "T2") 2)
      "T2" 3 1 (by decide) (by decide)).1, by decide, by decide, ?_, ?_⟩
  · exact ((C7_remove_active_reassigns
      ((((AppState.mkDefault 0).add_tab (tabNamed "T1") 1).add_tab
        (tabNamed "T2") 2).remove_tab "T2" 3).2
      "T1" 4 0 (by decide) (by decide)).2.1 (by decide)).1
  · exact ((C7_remove_active_reassigns
      ((((AppState.mkDefault 0).add_tab (tabNamed "T1") 1).add_tab
        (tabNamed "T2") 2).remove_tab "T2" 3).2
      "T1" 4 0 (by decide) (by decide)).2.1 (by decide)).2

end RustExplorer
